import Mathlib

/-!
# Verification of the tribe-widget availability-matching and sync core

Shallow embedding of the core of `tribe-widget` (Next.js client pages):
* `app/r/[slug]/page.tsx` — OverlapEngine (`overlapMinutes`, the `overlaps`
  memo) and PlanPromoter (`createPlanFromOverlap`),
* `app/p/[slug]/page.tsx` — SyncLoop (`load`), ResponseLedger (`setRSVP`,
  `setArrival`), ClaimLedger (`ensurePotluckDefaults`, `claimItem`,
  `unclaimItem`).

Timestamps are modelled as `Int` milliseconds since the epoch (the value of
`Date.getTime()`); JavaScript real division by 60000 is modelled in `ℚ`;
`Math.round` is `round : ℚ → ℤ` (both are `⌊x + 1/2⌋`).

The record store (Supabase) is external to `src/`; its row-level semantics
(insert, upsert on a uniqueness constraint, update by id) are modelled from
the spec where noted.
-/

namespace TribeWidget

/-- An availability window as used inside the `overlaps` memo:
`{ start: Date, end: Date }` with times in epoch milliseconds.
The source field `end` is a Lean keyword, rendered here as `endT`. -/
structure Window where
  start : Int
  endT : Int
deriving DecidableEq, Repr

/-- A candidate overlap entry `{ start: Date; end: Date; minutes: number }`
pushed by the `overlaps` memo. `minutes` holds `Math.round(mins)`. -/
structure Candidate where
  start : Int
  endT : Int
  minutes : Int
deriving DecidableEq, Repr

/-- `overlapMinutes(aStart, aEnd, bStart, bEnd)` from `app/r/[slug]/page.tsx`:
`start = max`, `end = min`, `ms = end - start`, returning `ms / 60000`
(real division) when `ms > 0` and `0` otherwise. -/
def overlapMinutes (aStart aEnd bStart bEnd : Int) : ℚ :=
  let start := max aStart bStart
  let stop := min aEnd bEnd
  let ms := stop - start
  if ms > 0 then (ms : ℚ) / 60000 else 0

/-- The index pattern of the double loop `for i; for j = i+1` in the
`overlaps` memo: all unordered pairs, in loop order. -/
def allPairs : List α → List (α × α)
  | [] => []
  | x :: xs => xs.map (fun y => (x, y)) ++ allPairs xs

/-- The `seen`-set de-duplication of the `overlaps` memo: keep the first
entry for each `(start, end)` key (the source key is the ISO-string pair;
exact timestamp equality is the same as equality of the millisecond pair). -/
def dedupeByKey : List Candidate → List (Int × Int) → List Candidate
  | [], _ => []
  | c :: cs, seen =>
    if (c.start, c.endT) ∈ seen then dedupeByKey cs seen
    else c :: dedupeByKey cs ((c.start, c.endT) :: seen)

/-- `Math.round(ms / 60000)` carried out in integer arithmetic:
`Math.round x = ⌊x + 1/2⌋` (round half towards `+∞`, as in Mathlib's
`round`), so on `ms / 60000` it is the floor division
`(ms + 30000) / 60000` (`Int` division here floors for a positive divisor).
The bridge lemma `roundedMinutes_eq_round` proves this equal to `round` of
the source's rational minute count. -/
def roundedMinutes (ms : Int) : Int := (ms + 30000) / 60000

/-- The candidate built for an overlapping pair `(a, b)`:
`{ start: max starts, end: min ends, minutes: Math.round(mins) }`. -/
def mkCandidate (a b : Window) : Candidate :=
  { start := max a.start b.start
    endT := min a.endT b.endT
    minutes := roundedMinutes (min a.endT b.endT - max a.start b.start) }

/-- The `overlaps` memo of `app/r/[slug]/page.tsx`: pairwise overlaps of at
least 30 minutes, de-duplicated by `(start, end)`, sorted ascending by
start, truncated to 8. Two modelling notes, each justified by a bridge
lemma: the source guard `overlapMinutes(...) >= 30` on rational minutes is
the integer condition `1800000 ≤ ms` on milliseconds
(`overlapMinutes_ge_30_iff`), and JavaScript `Array.sort` with comparator
`a.start - b.start` is a stable sort by start, modelled by the stable
`List.insertionSort` on `a.start ≤ b.start`. -/
def overlaps (windows : List Window) : List Candidate :=
  let out := (allPairs windows).filterMap fun p =>
    let ms := min p.1.endT p.2.endT - max p.1.start p.2.start
    if 1800000 ≤ ms then some (mkCandidate p.1 p.2) else none
  let deduped := dedupeByKey out []
  let sorted := deduped.insertionSort (fun a b => a.start ≤ b.start)
  sorted.take 8

instance : IsTotal Candidate (fun a b => a.start ≤ b.start) :=
  ⟨fun a b => le_total a.start b.start⟩

instance : IsTrans Candidate (fun a b => a.start ≤ b.start) :=
  ⟨fun _ _ _ hab hbc => le_trans hab hbc⟩

/-! ## Plan page data model (`app/p/[slug]/page.tsx`) -/

/-- The `Plan` row type of the plan page. -/
structure Plan where
  id : String
  slug : String
  title : String
  type : String
  note : Option String
  start_ts : String
  end_ts : String
  location : Option String
  created_at : String
deriving DecidableEq, Repr

/-- The `ResponseRow` row type: one attendance response. -/
structure ResponseRow where
  id : String
  plan_id : String
  user_key : String
  user_name : Option String
  status : String
  arrival : Option String
deriving DecidableEq, Repr

/-- The `ClaimRow` row type: one claimable item. -/
structure ClaimRow where
  id : String
  plan_id : String
  item : String
  claimed_by : Option String
deriving DecidableEq, Repr

/-- The plan page's displayed snapshot: the React state cells
`plan / responses / claims / loading / err` written by `load`. -/
structure PageState where
  plan : Option Plan
  responses : List ResponseRow
  claims : List ClaimRow
  loading : Bool
  err : Option String
deriving DecidableEq, Repr

/-- The `load(showSpinner)` function of the plan page, as a state transformer
over the three fetch results. A Supabase call returns `{ data, error }` with
`data` null exactly when `error` is set, so each result is an `Except`:
on a failed plan fetch the function returns early; on a failed responses or
claims fetch it records the error message and stores `(data ?? [])`, which is
the empty list. -/
def load (showSpinner : Bool) (planRes : Except String Plan)
    (respRes : Except String (List ResponseRow))
    (claimRes : Except String (List ClaimRow)) (s : PageState) : PageState :=
  let s0 := { s with loading := if showSpinner then true else s.loading,
                     err := none }
  match planRes with
  | .error m => { s0 with err := some m,
                          loading := if showSpinner then false else s0.loading }
  | .ok p =>
    let s1 := { s0 with plan := some p }
    let s2 := match respRes with
      | .error m => { s1 with err := some m, responses := [] }
      | .ok rs => { s1 with responses := rs }
    let s3 := match claimRes with
      | .error m => { s2 with err := some m, claims := [] }
      | .ok cs => { s2 with claims := cs }
    { s3 with loading := if showSpinner then false else s3.loading }

/-! ## ResponseLedger (`setRSVP` / `setArrival`) -/

/-- The payload object built by `setRSVP` / `setArrival`. -/
structure ResponsePayload where
  plan_id : String
  user_key : String
  user_name : String
  status : String
  arrival : Option String
deriving DecidableEq, Repr

/-- JavaScript `name.trim()`: strip whitespace from both ends. (Defined
structurally over the character list so that it evaluates inside the
kernel; Lean's own `String.trim` computes the same value through
`Substring` positions.) -/
def trimString (s : String) : String :=
  String.mk
    (((s.data.dropWhile Char.isWhitespace).reverse.dropWhile
      Char.isWhitespace).reverse)

/-- The `(plan_id, user_key)` uniqueness key of the `responses` table. -/
def keyMatches (pid uk : String) (r : ResponseRow) : Bool :=
  r.plan_id == pid && r.user_key == uk

/-- Modelled from the spec: the record store's
`upsert(payload, { onConflict: "plan_id,user_key" })`. The store itself is
not under `src/`; per §5/§6 of the spec all mutation is "an upsert keyed by
a uniqueness constraint" and `responses` is unique on `(plan_id, user_key)`,
a later write for the same pair replacing the earlier one. The conflicting
row is replaced in place (keeping its id); with no conflict a fresh row is
appended with a store-generated id `freshId`. -/
def upsertResponse : List ResponseRow → ResponsePayload → String → List ResponseRow
  | [], p, freshId =>
    [{ id := freshId, plan_id := p.plan_id, user_key := p.user_key,
       user_name := some p.user_name, status := p.status, arrival := p.arrival }]
  | r :: rs, p, freshId =>
    if keyMatches p.plan_id p.user_key r then
      { id := r.id, plan_id := p.plan_id, user_key := p.user_key,
        user_name := some p.user_name, status := p.status, arrival := p.arrival } :: rs
    else r :: upsertResponse rs p freshId

/-- The client state the RSVP handlers act on: the plan id, the caller's
identity token and typed name, the responses list (the store's rows for the
plan, re-read by `load(false)` after each successful write), and the error
cell. -/
structure RSVPContext where
  planId : String
  userKey : String
  name : String
  rows : List ResponseRow
  err : Option String
deriving DecidableEq, Repr

/-- `setRSVP(status)` of the plan page: requires a non-empty trimmed name,
builds the payload with `arrival: myResponse?.arrival ?? null` where
`myResponse` is the first response row with the caller's `user_key`, and
upserts it on `(plan_id, user_key)`. The write path is modelled on its
success branch (a store error only sets `err`). -/
def setRSVP (s : RSVPContext) (status : String) (freshId : String) : RSVPContext :=
  if trimString s.name = "" then { s with err := some "Add your name first." }
  else
    let myResponse := s.rows.find? (fun r => r.user_key == s.userKey)
    let payload : ResponsePayload :=
      { plan_id := s.planId, user_key := s.userKey, user_name := trimString s.name,
        status := status, arrival := myResponse.bind (fun r => r.arrival) }
    { s with err := none, rows := upsertResponse s.rows payload freshId }

/-- `setArrival(arrival)` of the plan page: like `setRSVP` but with
`status: myResponse?.status ?? "maybe"` and the given arrival string. -/
def setArrival (s : RSVPContext) (arrival : String) (freshId : String) : RSVPContext :=
  if trimString s.name = "" then { s with err := some "Add your name first." }
  else
    let myResponse := s.rows.find? (fun r => r.user_key == s.userKey)
    let payload : ResponsePayload :=
      { plan_id := s.planId, user_key := s.userKey, user_name := trimString s.name,
        status := (myResponse.map (fun r => r.status)).getD "maybe",
        arrival := some arrival }
    { s with err := none, rows := upsertResponse s.rows payload freshId }

/-! ## ClaimLedger (`ensurePotluckDefaults` / `claimItem` / `unclaimItem`) -/

/-- Modelled from the spec: the record store's
`.update({ claimed_by: v }).eq("id", rid)` — an update keyed by the primary
key `id`, touching every row whose id matches (ids are unique in the store). -/
def updateClaimById (rows : List ClaimRow) (rid : String) (v : Option String) :
    List ClaimRow :=
  rows.map fun r => if r.id == rid then { r with claimed_by := v } else r

/-- The client state the claim handlers act on: the caller's typed name, the
claims list (the store's rows for the plan, re-read after each successful
write), and the error cell. -/
structure ClaimContext where
  name : String
  claims : List ClaimRow
  err : Option String
deriving DecidableEq, Repr

/-- `claimItem(item)` of the plan page: requires a non-empty trimmed name
(otherwise sets the validation error and changes nothing), finds the claim
row for `item` (no-op when absent), and sets `claimed_by` to the trimmed
name unconditionally. Success branch of the store write. -/
def claimItem (s : ClaimContext) (item : String) : ClaimContext :=
  if trimString s.name = "" then { s with err := some "Add your name first." }
  else match s.claims.find? (fun c => c.item == item) with
    | none => { s with err := none }
    | some existing =>
      { s with err := none,
               claims := updateClaimById s.claims existing.id (some (trimString s.name)) }

/-- `unclaimItem(item)` of the plan page: finds the claim row for `item`
(no-op when absent); if `(existing.claimed_by || "") !== (name.trim() || "")`
it sets the authorization error and changes nothing; otherwise it resets
`claimed_by` to null. Success branch of the store write. -/
def unclaimItem (s : ClaimContext) (item : String) : ClaimContext :=
  match s.claims.find? (fun c => c.item == item) with
  | none => { s with err := none }
  | some existing =>
    if (existing.claimed_by.getD "") ≠ trimString s.name then
      { s with err := some "Only the person who claimed it can unclaim." }
    else
      { s with err := none, claims := updateClaimById s.claims existing.id none }

/-- `DEFAULT_POTLUCK_ITEMS` of the plan page. -/
def DEFAULT_POTLUCK_ITEMS : List String :=
  ["Main dish", "Salad / Veg", "Snack / App", "Dessert", "Drinks"]

/-- `ensurePotluckDefaults()` of the plan page, as a transformer of the
store's claim rows for the plan: compute the default items not already
present among the claims, return unchanged when none is missing, and
otherwise insert an unclaimed row for each missing item (ids are
store-generated, modelled by `freshId`). The Potluck-category gate lives in
the caller (the `useEffect` checking `plan.type` contains "potluck"). -/
def ensurePotluckDefaults (planId : String) (claims : List ClaimRow)
    (freshId : String → String) : List ClaimRow :=
  let existing := claims.map (fun c => c.item)
  let missing := DEFAULT_POTLUCK_ITEMS.filter (fun i => !(existing.contains i))
  if missing.length = 0 then claims
  else claims ++ missing.map (fun item =>
    { id := freshId item, plan_id := planId, item := item, claimed_by := none })

/-! ## PlanPromoter (`createPlanFromOverlap`, `app/r/[slug]/page.tsx`) -/

/-- The `HangRequest` row type of the request page. -/
structure HangRequest where
  id : String
  slug : String
  title : String
  type : String
  note : Option String
  created_at : String
deriving DecidableEq, Repr

/-- The row inserted into `plans` by `createPlanFromOverlap`. Timestamps are
kept as epoch milliseconds (`toISOString` is injective on instants). -/
structure PlanInsert where
  slug : String
  request_id : String
  title : String
  type : String
  note : Option String
  start_ts : Int
  end_ts : Int
deriving DecidableEq, Repr

/-- `createPlanFromOverlap(start, end)` of the request page: inserts a plan
row copying `title`, `type`, `note` from the request, with the chosen
candidate's start/end and the freshly generated slug `planSlug`
(`nanoid(10)` in the source — external randomness, passed as a parameter). -/
def createPlanFromOverlap (req : HangRequest) (planSlug : String)
    (start stop : Int) : PlanInsert :=
  { slug := planSlug, request_id := req.id, title := req.title,
    type := req.type, note := req.note, start_ts := start, end_ts := stop }

/-! ## Bridge lemmas: the integer pipeline computes the source's rational
arithmetic -/

/-- `overlapMinutes` in closed form: the positive-overlap guard `ms > 0` is
`max start < min end`. -/
theorem overlapMinutes_eq (aStart aEnd bStart bEnd : Int) :
    overlapMinutes aStart aEnd bStart bEnd =
      if 0 < min aEnd bEnd - max aStart bStart
      then ((min aEnd bEnd - max aStart bStart : Int) : ℚ) / 60000 else 0 := rfl

/-- The source guard `mins >= 30` on rational minutes is the integer
condition `1800000 ≤ ms` on milliseconds. -/
theorem overlapMinutes_ge_30_iff (aStart aEnd bStart bEnd : Int) :
    30 ≤ overlapMinutes aStart aEnd bStart bEnd ↔
      1800000 ≤ min aEnd bEnd - max aStart bStart := by
  rw [overlapMinutes_eq]
  by_cases h : 0 < min aEnd bEnd - max aStart bStart
  · rw [if_pos h, le_div_iff₀ (by norm_num : (0 : ℚ) < 60000)]
    constructor
    · intro hle
      have : ((1800000 : Int) : ℚ) ≤ ((min aEnd bEnd - max aStart bStart : Int) : ℚ) := by
        calc ((1800000 : Int) : ℚ) = 30 * 60000 := by norm_num
        _ ≤ _ := hle
      exact_mod_cast this
    · intro hle
      have : ((1800000 : Int) : ℚ) ≤ ((min aEnd bEnd - max aStart bStart : Int) : ℚ) := by
        exact_mod_cast hle
      calc (30 : ℚ) * 60000 = ((1800000 : Int) : ℚ) := by norm_num
      _ ≤ _ := this
  · rw [if_neg h]
    constructor
    · intro hle; norm_num at hle
    · intro hle; omega

/-- `roundedMinutes` computes `Math.round` of the source's rational minute
count. -/
theorem roundedMinutes_eq_round (ms : Int) :
    roundedMinutes ms = round ((ms : ℚ) / 60000) := by
  rw [round_eq, roundedMinutes]
  have h : (ms : ℚ) / 60000 + 1 / 2 = ((ms + 30000 : Int) : ℚ) / ((60000 : ℕ) : ℚ) := by
    push_cast
    ring
  rw [h, Rat.floor_intCast_div_natCast]
  norm_num

/-- Under the positive-overlap guard, the `minutes` field of a candidate is
exactly `Math.round(overlapMinutes(...))` as in the source. -/
theorem mkCandidate_minutes_eq_round (a b : Window)
    (h : 0 < min a.endT b.endT - max a.start b.start) :
    (mkCandidate a b).minutes =
      round (overlapMinutes a.start a.endT b.start b.endT) := by
  rw [mkCandidate, overlapMinutes_eq, if_pos h]
  exact roundedMinutes_eq_round _

/-! ## C2: pairwise overlap computation -/

/-- C2: for all windows A and B, `overlapMinutes` is positive iff
`max(A.start, B.start) < min(A.end, B.end)`; in that case it returns
`min(A.end, B.end) - max(A.start, B.start)` expressed in minutes
(milliseconds divided by 60000), and otherwise it returns zero. -/
theorem overlapMinutes_correct (aStart aEnd bStart bEnd : Int) :
    (0 < overlapMinutes aStart aEnd bStart bEnd ↔
      max aStart bStart < min aEnd bEnd)
    ∧ overlapMinutes aStart aEnd bStart bEnd =
        if max aStart bStart < min aEnd bEnd
        then ((min aEnd bEnd - max aStart bStart : Int) : ℚ) / 60000 else 0 := by
  have hiff : (0 < min aEnd bEnd - max aStart bStart) ↔
      max aStart bStart < min aEnd bEnd := by omega
  constructor
  · rw [overlapMinutes_eq]
    by_cases h : 0 < min aEnd bEnd - max aStart bStart
    · rw [if_pos h]
      constructor
      · intro _; omega
      · intro _
        exact div_pos (by exact_mod_cast h) (by norm_num)
    · rw [if_neg h]
      constructor
      · intro hc; norm_num at hc
      · intro hc; omega
  · rw [overlapMinutes_eq]
    exact if_congr hiff rfl rfl

/-! ## OverlapEngine pipeline lemmas -/

/-- Everything the de-duplication pass keeps was in its input. -/
theorem dedupeByKey_subset :
    ∀ (l : List Candidate) (seen : List (Int × Int)), dedupeByKey l seen ⊆ l := by
  intro l
  induction l with
  | nil => intro seen c hc; simp [dedupeByKey] at hc
  | cons x xs ih =>
    intro seen c hc
    rw [dedupeByKey] at hc
    by_cases hx : (x.start, x.endT) ∈ seen
    · rw [if_pos hx] at hc
      exact List.mem_cons_of_mem x (ih _ hc)
    · rw [if_neg hx] at hc
      rcases List.mem_cons.mp hc with h | h
      · exact h ▸ List.mem_cons_self x xs
      · exact List.mem_cons_of_mem x (ih _ h)

/-- The de-duplication pass yields pairwise-distinct `(start, end)` keys,
none of them in the incoming `seen` set. -/
theorem dedupeByKey_keys_nodup :
    ∀ (l : List Candidate) (seen : List (Int × Int)),
      ((dedupeByKey l seen).map fun c => (c.start, c.endT)).Nodup
      ∧ ∀ k ∈ (dedupeByKey l seen).map fun c => (c.start, c.endT), k ∉ seen := by
  intro l
  induction l with
  | nil => intro seen; simp [dedupeByKey]
  | cons x xs ih =>
    intro seen
    rw [dedupeByKey]
    by_cases hx : (x.start, x.endT) ∈ seen
    · rw [if_pos hx]
      exact ih seen
    · rw [if_neg hx]
      obtain ⟨ihn, ihs⟩ := ih ((x.start, x.endT) :: seen)
      refine ⟨?_, ?_⟩
      · rw [List.map_cons, List.nodup_cons]
        refine ⟨fun hmem => ?_, ihn⟩
        exact ihs _ hmem (List.mem_cons_self _ _)
      · intro k hk
        rw [List.map_cons] at hk
        rcases List.mem_cons.mp hk with h | h
        · exact h ▸ hx
        · intro hks
          exact ihs k h (List.mem_cons_of_mem _ hks)

/-- Any member of the `overlaps` output arises from a pair of windows whose
intersection is at least 30 minutes, as the candidate of that pair. -/
theorem mem_overlaps (ws : List Window) (c : Candidate) (hc : c ∈ overlaps ws) :
    ∃ a b : Window, 1800000 ≤ min a.endT b.endT - max a.start b.start
      ∧ c = mkCandidate a b := by
  rw [overlaps] at hc
  have h1 := List.take_subset 8 _ hc
  have h2 := (List.perm_insertionSort
    (fun a b : Candidate => a.start ≤ b.start) _).mem_iff.mp h1
  have h3 := dedupeByKey_subset _ _ h2
  obtain ⟨p, _, hp⟩ := List.mem_filterMap.mp h3
  by_cases hg : 1800000 ≤ min p.1.endT p.2.endT - max p.1.start p.2.start
  · rw [if_pos hg] at hp
    exact ⟨p.1, p.2, hg, (Option.some_inj.mp hp).symm⟩
  · rw [if_neg hg] at hp
    exact absurd hp (by simp)

/-! ## C3: minimum 30-minute duration -/

/-- C3: every candidate in the `overlaps` output lasts at least 30 minutes
(duration measured in minutes as milliseconds over 60000), and a pair of
windows whose intersection is exactly 30 minutes does produce a candidate. -/
theorem overlaps_min_duration (ws : List Window) :
    (∀ c ∈ overlaps ws, (30 : ℚ) ≤ ((c.endT - c.start : Int) : ℚ) / 60000)
    ∧ ∀ a b : Window, min a.endT b.endT - max a.start b.start = 1800000 →
        mkCandidate a b ∈ overlaps [a, b] := by
  constructor
  · intro c hc
    obtain ⟨a, b, hg, hce⟩ := mem_overlaps ws c hc
    have hms : c.endT - c.start = min a.endT b.endT - max a.start b.start := by
      subst hce; simp [mkCandidate]
    rw [le_div_iff₀ (by norm_num : (0 : ℚ) < 60000)]
    have hcast : ((1800000 : Int) : ℚ) ≤ ((c.endT - c.start : Int) : ℚ) := by
      exact_mod_cast hms ▸ hg
    calc (30 : ℚ) * 60000 = ((1800000 : Int) : ℚ) := by norm_num
    _ ≤ _ := hcast
  · intro a b h
    simp [overlaps, allPairs, h, dedupeByKey, List.insertionSort, List.orderedInsert]

/-- Witness for C3 at `A = [0, 30min)`, `B = [0, 60min)`: the intersection is
exactly 30 minutes and yields the candidate `[0, 30min)`. -/
theorem overlaps_min_duration_witness :
    ((30 : ℚ) ≤ (((mkCandidate ⟨0, 1800000⟩ ⟨0, 3600000⟩).endT -
        (mkCandidate ⟨0, 1800000⟩ ⟨0, 3600000⟩).start : Int) : ℚ) / 60000)
    ∧ mkCandidate ⟨0, 1800000⟩ ⟨0, 3600000⟩ ∈
        overlaps [⟨0, 1800000⟩, ⟨0, 3600000⟩] :=
  ⟨(overlaps_min_duration [⟨0, 1800000⟩, ⟨0, 3600000⟩]).1 _ (by decide),
   (overlaps_min_duration [⟨0, 1800000⟩, ⟨0, 3600000⟩]).2
     ⟨0, 1800000⟩ ⟨0, 3600000⟩ (by decide)⟩

/-! ## C4: dedup, cap, ordering -/

/-- Sorting then truncating preserves pairwise-distinct `(start, end)` keys. -/
theorem keys_nodup_sort_take (l : List Candidate)
    (h : (l.map fun c => (c.start, c.endT)).Nodup) :
    (((l.insertionSort fun a b => a.start ≤ b.start).take 8).map
      fun c => (c.start, c.endT)).Nodup := by
  have hperm : List.Perm
      ((l.insertionSort fun a b => a.start ≤ b.start).map
        fun c => (c.start, c.endT)) (l.map fun c => (c.start, c.endT)) :=
    (List.perm_insertionSort _ l).map _
  have hn := hperm.nodup_iff.mpr h
  exact hn.sublist ((List.take_sublist 8 _).map _)

/-- C4: the `overlaps` output has pairwise-distinct `(start, end)` keys
(deduplication), at most 8 entries, and is sorted ascending by start;
deduplication and sorting happen before the cap, so these hold of the
truncated output. -/
theorem overlaps_output_shape (ws : List Window) :
    ((overlaps ws).map fun c => (c.start, c.endT)).Nodup
    ∧ (overlaps ws).length ≤ 8
    ∧ (overlaps ws).Pairwise fun a b => a.start ≤ b.start := by
  refine ⟨?_, ?_, ?_⟩ <;> simp only [overlaps]
  · exact keys_nodup_sort_take _ ((dedupeByKey_keys_nodup _ []).1)
  · exact (List.length_take 8 _) ▸ min_le_left _ _
  · exact List.Pairwise.sublist (List.take_sublist 8 _)
      (List.sorted_insertionSort _ _)

/-! ## C1: SyncLoop failure behaviour -/

/-- C1 counterexample: a poll tick (`load(false)`) whose responses fetch
fails after a previously successful snapshot does NOT keep the previous
responses list — the source stores `(respData as ResponseRow[]) || []`,
which is the empty list when the fetch errored, so the displayed list is
cleared. -/
theorem load_respErr_clears_previous_snapshot :
    (load false
      (.ok ⟨"id1", "slug1", "Title", "Playdate", none, "s", "e", none, "t"⟩)
      (.error "network error")
      (.ok [])
      ⟨some ⟨"id1", "slug1", "Title", "Playdate", none, "s", "e", none, "t"⟩,
       [⟨"r1", "id1", "u1", some "Kate", "in", none⟩], [], false, none⟩).responses
    ≠ [⟨"r1", "id1", "u1", some "Kate", "in", none⟩] := by decide

/-- C1 amended: a tick whose plan fetch fails leaves the whole snapshot
(plan, responses, claims) unchanged; a tick whose responses (resp. claims)
fetch fails keeps the plan from the successful plan fetch but replaces the
responses (resp. claims) list with the empty list. -/
theorem load_failure_behaviour (s : PageState) (m : String) :
    (∀ (respRes : Except String (List ResponseRow))
       (claimRes : Except String (List ClaimRow)),
      (load false (.error m) respRes claimRes s).plan = s.plan
      ∧ (load false (.error m) respRes claimRes s).responses = s.responses
      ∧ (load false (.error m) respRes claimRes s).claims = s.claims)
    ∧ (∀ (p : Plan) (claimRes : Except String (List ClaimRow)),
      (load false (.ok p) (.error m) claimRes s).responses = []
      ∧ (load false (.ok p) (.error m) claimRes s).plan = some p)
    ∧ (∀ (p : Plan) (respRes : Except String (List ResponseRow)),
      (load false (.ok p) respRes (.error m) s).claims = []
      ∧ (load false (.ok p) respRes (.error m) s).plan = some p) := by
  refine ⟨?_, ?_, ?_⟩
  · intro respRes claimRes
    simp [load]
  · intro p claimRes
    rcases claimRes with _ | _ <;> simp [load]
  · intro p respRes
    rcases respRes with _ | _ <;> simp [load]

/-! ## C5: plan promotion copies the request -/

/-- C5: promoting a chosen candidate window creates a plan row whose title,
category and note are copied unchanged from the source request, whose
start/end are exactly the chosen candidate's, and whose slug is the freshly
generated public slug (with the request recorded as its source). -/
theorem createPlanFromOverlap_copies (req : HangRequest) (planSlug : String)
    (start stop : Int) :
    (createPlanFromOverlap req planSlug start stop).title = req.title
    ∧ (createPlanFromOverlap req planSlug start stop).type = req.type
    ∧ (createPlanFromOverlap req planSlug start stop).note = req.note
    ∧ (createPlanFromOverlap req planSlug start stop).start_ts = start
    ∧ (createPlanFromOverlap req planSlug start stop).end_ts = stop
    ∧ (createPlanFromOverlap req planSlug start stop).slug = planSlug
    ∧ (createPlanFromOverlap req planSlug start stop).request_id = req.id :=
  ⟨rfl, rfl, rfl, rfl, rfl, rfl, rfl⟩

/-! ## C6: merge-write semantics of the response upsert -/

/-- Upserting the same payload twice gives the same rows as upserting it
once. -/
theorem upsert_self_idem (rows : List ResponseRow) (p : ResponsePayload)
    (f g : String) :
    upsertResponse (upsertResponse rows p f) p g = upsertResponse rows p f := by
  induction rows with
  | nil => simp [upsertResponse, keyMatches]
  | cons r rs ih =>
    rw [upsertResponse]
    cases hk : keyMatches p.plan_id p.user_key r with
    | true =>
      rw [if_pos rfl]
      rw [upsertResponse, if_pos (by simp [keyMatches])]
    | false =>
      rw [if_neg (by simp)]
      rw [upsertResponse, if_neg (by simp [hk]), ih]

/-- After an upsert of payload `p`, exactly one row carries `p`'s key,
provided the store held at most one such row before (its uniqueness
invariant). -/
theorem upsert_key_count (rows : List ResponseRow) (p : ResponsePayload)
    (f : String)
    (hdup : (rows.filter (keyMatches p.plan_id p.user_key)).length ≤ 1) :
    ((upsertResponse rows p f).filter (keyMatches p.plan_id p.user_key)).length
      = 1 := by
  induction rows with
  | nil => simp [upsertResponse, keyMatches]
  | cons r rs ih =>
    rw [upsertResponse]
    cases hk : keyMatches p.plan_id p.user_key r with
    | true =>
      rw [if_pos rfl]
      have hr : (rs.filter (keyMatches p.plan_id p.user_key)).length = 0 := by
        rw [List.filter_cons] at hdup
        simp [hk] at hdup
        simpa using hdup
      rw [List.filter_cons, if_pos (by simp [keyMatches])]
      simp [hr]
    | false =>
      rw [if_neg (by simp)]
      rw [List.filter_cons, if_neg (by simp [hk])]
      rw [List.filter_cons] at hdup
      simp only [hk] at hdup
      exact ih (by simpa using hdup)

/-- An upsert always leaves a row carrying the payload's key. -/
theorem upsert_any_key (rows : List ResponseRow) (p : ResponsePayload)
    (f : String) :
    (upsertResponse rows p f).any (keyMatches p.plan_id p.user_key) = true := by
  induction rows with
  | nil => simp [upsertResponse, keyMatches]
  | cons r rs ih =>
    rw [upsertResponse]
    cases hk : keyMatches p.plan_id p.user_key r with
    | true =>
      rw [if_pos rfl]
      simp [keyMatches]
    | false =>
      rw [if_neg (by simp)]
      simp [ih]

/-- An upsert whose key already occurs replaces a row in place: the row
count does not change. -/
theorem upsert_length_of_any (rows : List ResponseRow) (q : ResponsePayload)
    (g : String)
    (hmem : rows.any (keyMatches q.plan_id q.user_key) = true) :
    (upsertResponse rows q g).length = rows.length := by
  induction rows with
  | nil => simp at hmem
  | cons r rs ih =>
    rw [upsertResponse]
    cases hk : keyMatches q.plan_id q.user_key r with
    | true => rw [if_pos rfl]; simp
    | false =>
      rw [if_neg (by simp)]
      rw [List.any_cons, hk] at hmem
      simp only [List.length_cons]
      rw [ih (by simpa using hmem)]

/-- C6: the response write is a merge-write keyed by
`(plan_id, user_key)`: upserting the same payload twice yields the same
store as upserting it once, leaving exactly one response row for that
participant (given the store's uniqueness invariant); and any later write
`q` for the same key replaces the row in place rather than appending a
duplicate (the row count stays the same). -/
theorem setResponse_merge_write (rows : List ResponseRow)
    (p q : ResponsePayload) (f g : String)
    (hq : q.plan_id = p.plan_id ∧ q.user_key = p.user_key)
    (hdup : (rows.filter (keyMatches p.plan_id p.user_key)).length ≤ 1) :
    upsertResponse (upsertResponse rows p f) p g = upsertResponse rows p f
    ∧ ((upsertResponse rows p f).filter
        (keyMatches p.plan_id p.user_key)).length = 1
    ∧ (upsertResponse (upsertResponse rows p f) q g).length
        = (upsertResponse rows p f).length := by
  refine ⟨upsert_self_idem rows p f g, upsert_key_count rows p f hdup, ?_⟩
  apply upsert_length_of_any
  rw [hq.1, hq.2]
  exact upsert_any_key rows p f

/-- Witness for C6: one participant RSVPs "in" twice on an empty store, and
then changes to "maybe". -/
theorem setResponse_merge_write_witness :
    (upsertResponse
        (upsertResponse [] ⟨"plan1", "u1", "Kate", "in", none⟩ "r1")
        ⟨"plan1", "u1", "Kate", "in", none⟩ "r2"
      = upsertResponse [] ⟨"plan1", "u1", "Kate", "in", none⟩ "r1")
    ∧ ((upsertResponse [] ⟨"plan1", "u1", "Kate", "in", none⟩ "r1").filter
        (keyMatches "plan1" "u1")).length = 1
    ∧ (upsertResponse
        (upsertResponse [] ⟨"plan1", "u1", "Kate", "in", none⟩ "r1")
        ⟨"plan1", "u1", "Kate", "maybe", some "On time"⟩ "r2").length
      = (upsertResponse [] ⟨"plan1", "u1", "Kate", "in", none⟩ "r1").length :=
  setResponse_merge_write [] ⟨"plan1", "u1", "Kate", "in", none⟩
    ⟨"plan1", "u1", "Kate", "maybe", some "On time"⟩ "r1" "r2"
    (by decide) (by decide)

/-! ## C7 and C8: claim ownership -/

/-- Updating the row found for an item (by its id) is observed by the next
lookup of that item: the same row is found, with its `claimed_by` set. -/
theorem find_update_of_find (rows : List ClaimRow) (item : String)
    (c : ClaimRow) (h : rows.find? (fun x => x.item == item) = some c)
    (v : Option String) :
    (updateClaimById rows c.id v).find? (fun x => x.item == item)
      = some { c with claimed_by := v } := by
  induction rows with
  | nil => simp at h
  | cons r rs ih =>
    rw [updateClaimById, List.map_cons]
    cases hr : (r.item == item) with
    | true =>
      have hc : r = c := by
        rw [List.find?_cons] at h
        simp only [hr] at h
        exact Option.some_inj.mp h
      subst hc
      rw [List.find?_cons]
      simp [hr]
    | false =>
      rw [List.find?_cons] at h
      simp only [hr] at h
      rw [List.find?_cons]
      have hitem : ((if r.id == c.id then { r with claimed_by := v } else r).item
          == item) = false := by
        by_cases hid : (r.id == c.id) = true <;> simp [hid, hr]
      simp only [hitem]
      exact ih h

/-- C7: `unclaimItem` succeeds exactly when the requester's (trimmed)
display name equals the item's current `claimed_by` (null read as the empty
string), resetting `claimed_by` to null — so a claim followed by an unclaim
under the same name returns the item to unclaimed; any other requester gets
the authorization error and the claims are left entirely unchanged. -/
theorem unclaim_authorization (s : ClaimContext) (item : String)
    (c : ClaimRow)
    (hfind : s.claims.find? (fun x => x.item == item) = some c) :
    (c.claimed_by.getD "" = trimString s.name →
      (unclaimItem s item).err = none
      ∧ (unclaimItem s item).claims.find? (fun x => x.item == item)
          = some { c with claimed_by := none })
    ∧ (c.claimed_by.getD "" ≠ trimString s.name →
      (unclaimItem s item).err
          = some "Only the person who claimed it can unclaim."
      ∧ (unclaimItem s item).claims = s.claims)
    ∧ (trimString s.name ≠ "" →
      (unclaimItem (claimItem s item) item).claims.find?
          (fun x => x.item == item) = some { c with claimed_by := none }) := by
  refine ⟨?_, ?_, ?_⟩
  · intro heq
    rw [unclaimItem, hfind]
    dsimp only
    rw [if_neg (by simp [heq])]
    exact ⟨rfl, find_update_of_find s.claims item c hfind none⟩
  · intro hne
    rw [unclaimItem, hfind]
    dsimp only
    rw [if_pos hne]
    exact ⟨rfl, rfl⟩
  · intro hname
    have hnm : (claimItem s item).name = s.name := by
      rw [claimItem]
      split
      · rfl
      · split <;> rfl
    have hfind1 : (claimItem s item).claims.find? (fun x => x.item == item)
        = some { c with claimed_by := some (trimString s.name) } := by
      rw [claimItem, if_neg hname, hfind]
      dsimp only
      exact find_update_of_find s.claims item c hfind
        (some (trimString s.name))
    rw [unclaimItem, hnm, hfind1]
    dsimp only
    rw [if_neg (by simp)]
    exact find_update_of_find (claimItem s item).claims item _ hfind1 none

/-- Witness for C7: "Kate" claims "Main dish" already claimed under her
name and releases it; the same state viewed by "Bob" is rejected with the
authorization error and the row kept. -/
theorem unclaim_authorization_witness :
    ((unclaimItem ⟨"Kate", [⟨"c1", "p1", "Main dish", some "Kate"⟩], none⟩
        "Main dish").err = none
      ∧ (unclaimItem ⟨"Kate", [⟨"c1", "p1", "Main dish", some "Kate"⟩], none⟩
          "Main dish").claims.find? (fun x => x.item == "Main dish")
          = some ⟨"c1", "p1", "Main dish", none⟩)
    ∧ ((unclaimItem ⟨"Bob", [⟨"c1", "p1", "Main dish", some "Kate"⟩], none⟩
        "Main dish").err = some "Only the person who claimed it can unclaim."
      ∧ (unclaimItem ⟨"Bob", [⟨"c1", "p1", "Main dish", some "Kate"⟩], none⟩
          "Main dish").claims = [⟨"c1", "p1", "Main dish", some "Kate"⟩]) :=
  ⟨(unclaim_authorization
      ⟨"Kate", [⟨"c1", "p1", "Main dish", some "Kate"⟩], none⟩ "Main dish"
      ⟨"c1", "p1", "Main dish", some "Kate"⟩ (by decide)).1 (by decide),
   (unclaim_authorization
      ⟨"Bob", [⟨"c1", "p1", "Main dish", some "Kate"⟩], none⟩ "Main dish"
      ⟨"c1", "p1", "Main dish", some "Kate"⟩ (by decide)).2.1 (by decide)⟩

/-- C8: `claimItem` with an empty (trimmed) display name fails with the
validation error and changes nothing; with a non-empty name it sets
`claimed_by` on the matching existing row to that name unconditionally —
for every current `claimed_by` value, unclaimed or owned by someone else
(last-write-wins). -/
theorem claim_validation_lastwrite (s : ClaimContext) (item : String) :
    (trimString s.name = "" →
      claimItem s item = { s with err := some "Add your name first." })
    ∧ (∀ c : ClaimRow, trimString s.name ≠ "" →
      s.claims.find? (fun x => x.item == item) = some c →
      (claimItem s item).err = none
      ∧ (claimItem s item).claims.find? (fun x => x.item == item)
          = some { c with claimed_by := some (trimString s.name) }) := by
  constructor
  · intro h
    rw [claimItem, if_pos h]
  · intro c hname hfind
    constructor
    · rw [claimItem, if_neg hname, hfind]
    · rw [claimItem, if_neg hname, hfind]
      dsimp only
      exact find_update_of_find s.claims item c hfind
        (some (trimString s.name))

/-- Witness for C8: an empty name is rejected; "Bob" overwrites a row
already claimed by "Alice". -/
theorem claim_validation_lastwrite_witness :
    (claimItem ⟨" ", [⟨"c1", "p1", "Main dish", some "Alice"⟩], none⟩
        "Main dish"
      = ⟨" ", [⟨"c1", "p1", "Main dish", some "Alice"⟩],
          some "Add your name first."⟩)
    ∧ ((claimItem ⟨"Bob", [⟨"c1", "p1", "Main dish", some "Alice"⟩], none⟩
        "Main dish").err = none
      ∧ (claimItem ⟨"Bob", [⟨"c1", "p1", "Main dish", some "Alice"⟩], none⟩
          "Main dish").claims.find? (fun x => x.item == "Main dish")
          = some ⟨"c1", "p1", "Main dish", some "Bob"⟩) :=
  ⟨(claim_validation_lastwrite
      ⟨" ", [⟨"c1", "p1", "Main dish", some "Alice"⟩], none⟩ "Main dish").1
      (by decide),
   (claim_validation_lastwrite
      ⟨"Bob", [⟨"c1", "p1", "Main dish", some "Alice"⟩], none⟩ "Main dish").2
      ⟨"c1", "p1", "Main dish", some "Alice"⟩ (by decide) (by decide)⟩

/-! ## C9: potluck default seeding -/

/-- C9: `ensurePotluckDefaults` appends an unclaimed claim row for exactly
the default items not already present (leaving existing rows untouched),
afterwards every default item is present, and a second run is a no-op
(idempotence, hence no duplicate default rows). -/
theorem ensurePotluckDefaults_spec (planId : String) (claims : List ClaimRow)
    (f g : String → String) :
    ensurePotluckDefaults planId (ensurePotluckDefaults planId claims f) g
      = ensurePotluckDefaults planId claims f
    ∧ (∃ inserted : List ClaimRow,
        ensurePotluckDefaults planId claims f = claims ++ inserted
        ∧ inserted.map (fun r => r.item)
            = DEFAULT_POTLUCK_ITEMS.filter
                (fun i => !((claims.map (fun c => c.item)).contains i))
        ∧ ∀ r ∈ inserted, r.claimed_by = none ∧ r.plan_id = planId)
    ∧ ∀ d ∈ DEFAULT_POTLUCK_ITEMS,
        ∃ r ∈ ensurePotluckDefaults planId claims f, r.item = d := by
  have h2 : ∃ inserted : List ClaimRow,
      ensurePotluckDefaults planId claims f = claims ++ inserted
      ∧ inserted.map (fun r => r.item)
          = DEFAULT_POTLUCK_ITEMS.filter
              (fun i => !((claims.map (fun c => c.item)).contains i))
      ∧ ∀ r ∈ inserted, r.claimed_by = none ∧ r.plan_id = planId := by
    rw [ensurePotluckDefaults]
    by_cases h : (DEFAULT_POTLUCK_ITEMS.filter
        (fun i => !((claims.map (fun c => c.item)).contains i))).length = 0
    · refine ⟨[], ?_, ?_, by simp⟩
      · rw [if_pos h, List.append_nil]
      · rw [List.map_nil, eq_comm, ← List.length_eq_zero]
        exact h
    · refine ⟨(DEFAULT_POTLUCK_ITEMS.filter
          (fun i => !((claims.map (fun c => c.item)).contains i))).map
          (fun item =>
            { id := f item, plan_id := planId, item := item,
              claimed_by := none }), ?_, ?_, ?_⟩
      · rw [if_neg h]
      · rw [List.map_map]
        exact List.map_id'' (fun x => rfl) _
      · intro r hr
        obtain ⟨i, _, hi⟩ := List.mem_map.mp hr
        exact hi ▸ ⟨rfl, rfl⟩
  have h3 : ∀ d ∈ DEFAULT_POTLUCK_ITEMS,
      ∃ r ∈ ensurePotluckDefaults planId claims f, r.item = d := by
    intro d hd
    obtain ⟨inserted, hins, hmap, _⟩ := h2
    by_cases hc : ((claims.map (fun c => c.item)).contains d) = true
    · have : d ∈ claims.map (fun c => c.item) := by simpa using hc
      obtain ⟨r, hr, hri⟩ := List.mem_map.mp this
      exact ⟨r, by rw [hins]; exact List.mem_append_left _ hr, hri⟩
    · have hdm : d ∈ inserted.map (fun r => r.item) := by
        rw [hmap, List.mem_filter]
        exact ⟨hd, by simpa using hc⟩
      obtain ⟨r, hr, hri⟩ := List.mem_map.mp hdm
      exact ⟨r, by rw [hins]; exact List.mem_append_right _ hr, hri⟩
  refine ⟨?_, h2, h3⟩
  have hm : DEFAULT_POTLUCK_ITEMS.filter
      (fun i => !(((ensurePotluckDefaults planId claims f).map
        (fun c => c.item)).contains i)) = [] := by
    rw [List.filter_eq_nil_iff]
    intro d hd
    obtain ⟨r, hr, hri⟩ := h3 d hd
    have : d ∈ (ensurePotluckDefaults planId claims f).map
        (fun c => c.item) := List.mem_map.mpr ⟨r, hr, hri⟩
    simp [this]
  rw [ensurePotluckDefaults, hm]
  simp

/-- Witness for C9 on a store already holding a claimed "Main dish" row. -/
theorem ensurePotluckDefaults_spec_witness :
    (ensurePotluckDefaults "p1"
        (ensurePotluckDefaults "p1"
          [⟨"c1", "p1", "Main dish", some "Kate"⟩] (fun i => i)) (fun i => i)
      = ensurePotluckDefaults "p1"
          [⟨"c1", "p1", "Main dish", some "Kate"⟩] (fun i => i))
    ∧ ∃ r ∈ ensurePotluckDefaults "p1"
        [⟨"c1", "p1", "Main dish", some "Kate"⟩] (fun i => i),
        r.item = "Dessert" :=
  ⟨(ensurePotluckDefaults_spec "p1"
      [⟨"c1", "p1", "Main dish", some "Kate"⟩] (fun i => i) (fun i => i)).1,
   (ensurePotluckDefaults_spec "p1"
      [⟨"c1", "p1", "Main dish", some "Kate"⟩] (fun i => i) (fun i => i)).2.2
      "Dessert" (by decide)⟩

/-! ## C10: partial updates on a missing row fill defaults -/

/-- An upsert whose key occurs nowhere appends a fresh row at the end. -/
theorem upsert_append_of_absent (rows : List ResponseRow)
    (p : ResponsePayload) (f : String)
    (h : ∀ r ∈ rows, keyMatches p.plan_id p.user_key r = false) :
    upsertResponse rows p f = rows ++
      [{ id := f, plan_id := p.plan_id, user_key := p.user_key,
         user_name := some p.user_name, status := p.status,
         arrival := p.arrival }] := by
  induction rows with
  | nil => simp [upsertResponse]
  | cons r rs ih =>
    rw [upsertResponse, if_neg (by simp [h r (List.mem_cons_self r rs)])]
    rw [ih (fun x hx => h x (List.mem_cons_of_mem r hx))]
    rfl

/-- C10: when no response row exists for the caller's key, a partial update
still creates a full row: `setArrival` alone creates a response with status
"maybe", and `setRSVP` alone creates a response with a null arrival. -/
theorem partial_update_fills_defaults (s : RSVPContext) (st a f : String)
    (hname : trimString s.name ≠ "")
    (habs : ∀ r ∈ s.rows, r.user_key ≠ s.userKey) :
    (setArrival s a f).rows = s.rows ++
      [{ id := f, plan_id := s.planId, user_key := s.userKey,
         user_name := some (trimString s.name), status := "maybe",
         arrival := some a }]
    ∧ (setRSVP s st f).rows = s.rows ++
      [{ id := f, plan_id := s.planId, user_key := s.userKey,
         user_name := some (trimString s.name), status := st,
         arrival := none }] := by
  have hfind : s.rows.find? (fun r => r.user_key == s.userKey) = none := by
    rw [List.find?_eq_none]
    intro r hr
    simp [habs r hr]
  constructor
  · rw [setArrival, if_neg hname, hfind]
    dsimp only
    exact upsert_append_of_absent s.rows _ f
      (fun r hr => by simp [keyMatches, habs r hr])
  · rw [setRSVP, if_neg hname, hfind]
    dsimp only
    exact upsert_append_of_absent s.rows _ f
      (fun r hr => by simp [keyMatches, habs r hr])

/-- Witness for C10: "Kate" on an empty response store. -/
theorem partial_update_fills_defaults_witness :
    (setArrival ⟨"p1", "u1", "Kate", [], none⟩ "On time" "r1").rows
      = [] ++ [⟨"r1", "p1", "u1", some "Kate", "maybe", some "On time"⟩]
    ∧ (setRSVP ⟨"p1", "u1", "Kate", [], none⟩ "in" "r1").rows
      = [] ++ [⟨"r1", "p1", "u1", some "Kate", "in", none⟩] :=
  partial_update_fills_defaults ⟨"p1", "u1", "Kate", [], none⟩ "in"
    "On time" "r1" (by decide) (by simp)

end TribeWidget
